import Mathlib

set_option linter.unusedVariables false

/-! Verification development for the pelorus Waterline-to-GraphQL adapter.
    The definitions below are a shallow embedding of `src/adapter.js`:
    JavaScript records become association lists over `JsValue`, thrown
    exceptions become `Except JsError`, and the module-level mutable
    `internals.defaults` object becomes explicit `Defaults` state threaded
    through `getGraphQlSchema`. -/

/-- JavaScript runtime values, as far as the adapter manipulates them.
    Numbers are modelled as rationals (the adapter performs no arithmetic,
    so IEEE rounding never matters for the properties proved here). -/
inductive JsValue where
  | undefined
  | null
  | bool (b : Bool)
  | num (q : Rat)
  | str (s : String)
  | obj (fields : List (String × JsValue))
  | arr (elems : List JsValue)

/-- Error kinds surfaced by the embedded code.  `typeError` stands for a
    JavaScript `TypeError` (property access on `undefined`/`null`, calling a
    non-function), `configurationError` for a failed `Joi.assert`, and
    `unsupportedLiteralKind` for the failure produced when
    `internals.getParser` returns `null` and the raw-filter scalar then
    invokes it (`parser.call` on `null` throws). -/
inductive JsError where
  | typeError
  | configurationError
  | unsupportedLiteralKind
deriving DecidableEq

/-- Association-list lookup, modelling JavaScript property read `l[k]`
    (first binding wins; JavaScript objects have unique keys). -/
def jsLookup {α : Type} : List (String × α) → String → Option α
  | [], _ => none
  | p :: rest, k => if p.1 = k then some p.2 else jsLookup rest k

/-- Boolean membership in a list of keys. -/
def keyMem : List String → String → Bool
  | [], _ => false
  | a :: rest, k => if a = k then true else keyMem rest k

/-- JavaScript property assignment `l[k] = v`: replace in place, else append. -/
def setProp {α : Type} : List (String × α) → String → α → List (String × α)
  | [], k, v => [(k, v)]
  | p :: rest, k, v => if p.1 = k then (k, v) :: rest else p :: setProp rest k v

/-- Embedding of JavaScript `String.prototype.toLowerCase` on the ASCII
    identifiers the adapter handles. -/
def jsToLowerCase (s : String) : String :=
  String.mk (s.data.map Char.toLower)

/-- Embedding of lodash `_.capitalize`: upper-case the first character and
    lower-case the rest. -/
def lodashCapitalize (s : String) : String :=
  match s.data with
  | [] => ""
  | c :: cs => String.mk (c.toUpper :: cs.map Char.toLower)

/-- JavaScript truthiness. -/
def truthy : JsValue → Bool
  | .undefined => false
  | .null => false
  | .bool b => b
  | .num q => decide (q ≠ 0)
  | .str s => decide (s ≠ "")
  | .obj _ => true
  | .arr _ => true

/-- Values that are neither objects nor nullish: reading a named property
    off them yields `undefined` (primitives carry no own data properties
    with attribute names). -/
def isBareScalar : JsValue → Bool
  | .bool _ => true
  | .num _ => true
  | .str _ => true
  | _ => false

/-- JavaScript property read `v[k]` as the source performs it: reading off
    `undefined`/`null` throws a `TypeError`; reading a missing key off an
    object yields `undefined`; primitives yield `undefined` for these keys. -/
def jsGet : JsValue → String → Except JsError JsValue
  | .undefined, _ => .error .typeError
  | .null, _ => .error .typeError
  | .obj fs, k => .ok ((jsLookup fs k).getD .undefined)
  | _, _ => .ok .undefined

/-- Total property read used when the base is known to be a plain record
    (store rows in the Waterline model below). -/
def jsGetTotal : JsValue → String → JsValue
  | .obj fs, k => (jsLookup fs k).getD .undefined
  | _, _ => .undefined

/-- Property assignment on a `JsValue`; the adapter only ever assigns into
    criteria objects. -/
def jsSetProp : JsValue → String → JsValue → JsValue
  | .obj fs, k, v => .obj (setProp fs k v)
  | w, _, _ => w

mutual

/-- Structural value equality, modelling the equality test the store applies
    when matching a criteria attribute against a record attribute (the values
    compared by the adapter are foreign-key scalars). -/
def jsBeq : JsValue → JsValue → Bool
  | .undefined, .undefined => true
  | .null, .null => true
  | .bool a, .bool b => a == b
  | .num a, .num b => a == b
  | .str a, .str b => a == b
  | .obj xs, .obj ys => jsBeqFields xs ys
  | .arr xs, .arr ys => jsBeqList xs ys
  | _, _ => false

def jsBeqList : List JsValue → List JsValue → Bool
  | [], [] => true
  | x :: xs, y :: ys => jsBeq x y && jsBeqList xs ys
  | _, _ => false

def jsBeqFields : List (String × JsValue) → List (String × JsValue) → Bool
  | [], [] => true
  | (k, x) :: xs, (l, y) :: ys => k == l && jsBeq x y && jsBeqFields xs ys
  | _, _ => false

end

/-- The GraphQL scalar types the adapter hands out: the five scalars of
    `internals.convertToGraphQlType` (`json` is `internals.GraphQLJson`). -/
inductive GqlScalar where
  | int
  | float
  | boolean
  | string
  | json
deriving DecidableEq

/-- Embedding of `internals.convertToGraphQlType` (src/adapter.js 224-239).
    The source switches on `type.toLowerCase()`; when the attribute carries
    no `type` property (`none` here) that call throws a `TypeError`. -/
def convertToGraphQlType : Option String → Except JsError GqlScalar
  | none => .error .typeError
  | some t =>
    .ok (match jsToLowerCase t with
      | "integer" => .int
      | "boolean" => .boolean
      | "float" => .float
      | "json" => .json
      | _ => .string)

/-- One Waterline attribute rule object.  Optional fields mirror JavaScript
    property presence: `none` means the property is absent, so
    `hasOwnProperty` is false.  `required` is read only for truthiness. -/
structure AttrRules where
  type : Option String := none
  required : Bool := false
  primaryKey : Option Bool := none
  unique : Option Bool := none
  model : Option String := none
  collection : Option String := none
  via : Option String := none

/-- A Waterline collection as the adapter consumes it: `identity` is
    `collection.adapter.identity`, `attributes` is `_attributes` in
    declaration order, and `records` models the external store contents
    behind `find`/`findOne`. -/
structure Collection where
  identity : String
  attributes : List (String × AttrRules)
  primaryKey : String
  records : List JsValue

/-- The object type registered by `internals.buildType` (name/description). -/
structure TypeMeta where
  name : String
  description : String
deriving DecidableEq

/-- GraphQL type expressions occurring in built fields.  `ref`/`listOf`
    carry the registry lookup result (`none` models a JavaScript
    `undefined` type for an unregistered reference). -/
inductive GqlFieldType where
  | scalar (g : GqlScalar)
  | nonNull (g : GqlScalar)
  | ref (t : Option TypeMeta)
  | listOf (t : Option TypeMeta)
deriving DecidableEq

/-- One declared query argument (`{name, type}` in the source). -/
structure ArgDef where
  name : String
  type : GqlScalar
deriving DecidableEq

/-- The resolver closure attached to a root query field: `findOne c` is
    `(object, criteria) => collection.findOne(criteria).populateAll()` and
    `findMany c` is `(object, criteria) => collection.find(criteria).populateAll()`. -/
inductive ResolveTag where
  | findOne (c : Collection)
  | findMany (c : Collection)

/-- One entry of `internals.defaults.modelQueries`. -/
structure QueryField where
  type : GqlFieldType
  args : List (String × ArgDef)
  resolve : ResolveTag

/-- The resolver closure attached to a relation field of an output type. -/
inductive FieldResolveTag where
  | modelRel (key modelName : String)
  | collectionRel (parent : Collection) (rules : AttrRules)

/-- One field of a built output type. -/
structure FieldDef where
  type : GqlFieldType
  resolve : Option FieldResolveTag

/-- The module-level `internals.defaults` object after merging. -/
structure Defaults where
  collections : List (String × Collection)
  exposeQueryLanguage : Bool
  modelQueries : List (String × QueryField)
  types : List (String × TypeMeta)

/-- State of `internals.defaults` as declared at module load (src/adapter.js 18-23). -/
def initialDefaults : Defaults :=
  ⟨[], false, [], []⟩

/-- A configuration object passed by the caller.  Only the two keys
    allowed by `internals.configSchema` can be present. -/
structure Config where
  collections : Option (List (String × Collection)) := none
  exposeQueryLanguage : Option Bool := none

/-- The built schema: the root object exposes exactly the
    `internals.defaults.modelQueries` entries at the end of the build. -/
structure Schema where
  queryFields : List (String × QueryField)

/-- Modelled from the spec: the external Waterline store collaborator
    (spec sections 3 and 6; the waterline package is not part of src/).
    A criteria object either wraps its filter under a `where` key or is the
    filter itself; pagination keys are not modelled because no claim
    concerns them. -/
def whereClause (criteria : JsValue) : JsValue :=
  match criteria with
  | .obj fs =>
    match jsLookup fs "where" with
    | some w => w
    | none => criteria
  | _ => criteria

/-- Modelled from the spec: a record matches a filter object when every
    filter attribute equals the record's same-named attribute. -/
def matchesWhere (w r : JsValue) : Bool :=
  match w with
  | .obj fs => fs.all (fun p => jsBeq (jsGetTotal r p.1) p.2)
  | _ => true

/-- Modelled from the spec: `collection.find(criteria)` returns every
    matching record; `populateAll` is store-side relation population and
    does not change which records match. -/
def waterlineFind (recs : List JsValue) (criteria : JsValue) : List JsValue :=
  recs.filter (fun r => matchesWhere (whereClause criteria) r)

/-- Modelled from the spec: `collection.findOne(criteria)` returns the
    first matching record, or null. -/
def waterlineFindOne (recs : List JsValue) (criteria : JsValue) : JsValue :=
  match waterlineFind recs criteria with
  | r :: _ => r
  | [] => .null

/-- Run the resolver of a registered root query field
    (src/adapter.js 205, 212): both closures ignore `object` and hand
    `criteria` to the store. -/
def runQueryResolve (q : QueryField) (object criteria : JsValue) : Except JsError JsValue :=
  match q.resolve with
  | .findOne c => .ok (waterlineFindOne c.records criteria)
  | .findMany c => .ok (.arr (waterlineFind c.records criteria))

/-- Embedding of the `model` (belongsTo) field resolver closure built by
    `internals.buildType` (src/adapter.js 97-116).  `key` and `modelName`
    are the closure captures (`key` and `rules.model`); the closure is only
    created when the rule has a `model` property.  Looking up a collection
    absent from `internals.defaults.collections`, or a query field absent
    from `modelQueries`, throws a `TypeError` exactly as reading
    `.primaryKey` / calling `.resolve` off `undefined` does. -/
def modelFieldResolve (d : Defaults) (key modelName : String) (object criteria : JsValue) :
    Except JsError JsValue := do
  let fieldVal ← jsGet object key
  match jsLookup d.collections modelName with
  | none => .error .typeError
  | some refColl => do
    let id0 ← jsGet fieldVal refColl.primaryKey
    let identifier ←
      if truthy id0 then pure id0
      else do
        let id1 ← jsGet object refColl.primaryKey
        if truthy id1 then pure id1 else jsGet object key
    let criteria2 := jsSetProp criteria refColl.primaryKey identifier
    match jsLookup d.modelQueries (jsToLowerCase modelName) with
    | none => .error .typeError
    | some q => runQueryResolve q object criteria2

/-- Embedding of the `collection` (hasMany) field resolver closure built by
    `internals.buildType` (src/adapter.js 120-132): it injects the parent's
    primary-key value into the criteria under the lowercased `via` name and
    delegates to the referenced collection's plural query field with the
    criteria wrapped in a `where` object. -/
def collectionFieldResolve (d : Defaults) (parent : Collection) (rules : AttrRules)
    (object criteria : JsValue) : Except JsError JsValue := do
  match rules.via with
  | none => .error .typeError
  | some viaName => do
    let pkVal ← jsGet object parent.primaryKey
    let criteria2 := jsSetProp criteria (jsToLowerCase viaName) pkVal
    match rules.collection with
    | none => .error .typeError
    | some cname =>
      match jsLookup d.modelQueries (jsToLowerCase cname ++ "s") with
      | none => .error .typeError
      | some q => runQueryResolve q object (.obj [("where", criteria2)])

/-- One step of the lazy `fields` thunk of `internals.buildType`
    (src/adapter.js 86-141): classify the attribute as belongsTo
    (`model`), hasMany (`collection`) or plain scalar and build the field. -/
def attrField (d : Defaults) (collection : Collection) (key : String) (rules : AttrRules) :
    Except JsError FieldDef :=
  match rules.model with
  | some m => .ok ⟨.ref (jsLookup d.types (lodashCapitalize m)), some (.modelRel key m)⟩
  | none =>
    match rules.collection with
    | some c =>
      .ok ⟨.listOf (jsLookup d.types (lodashCapitalize c)), some (.collectionRel collection rules)⟩
    | none => do
      let t ← convertToGraphQlType rules.type
      .ok ⟨if rules.required then .nonNull t else .scalar t, none⟩

/-- The whole lazy `fields` thunk of the output type, evaluated against the
    registries as they stand when the thunk first runs. -/
def buildTypeFields (d : Defaults) (collection : Collection) :
    Except JsError (List (String × FieldDef)) :=
  collection.attributes.foldlM
    (fun fs p => do
      let f ← attrField d collection p.1 p.2
      .ok (setProp fs p.1 f))
    []

/-- Embedding of `internals.buildType` registration (src/adapter.js 78-84):
    register the output type under the capitalized identity.  The type's
    `name` and `description` capitalize the already-capitalized identity. -/
def buildType (d : Defaults) (collection : Collection) : Defaults :=
  let collectionIdentity := lodashCapitalize collection.identity
  { d with
    types := setProp d.types collectionIdentity
      ⟨lodashCapitalize collectionIdentity,
       "This represents a/an " ++ lodashCapitalize collectionIdentity⟩ }


/-- The `findManyArgs` object as initialized by `internals.buildQueryFields`
    (src/adapter.js 156-178): the built-in pagination arguments, plus the
    raw-filter `where` argument when `exposeQueryLanguage` is set. -/
def initFindManyArgs (exposeQL : Bool) : List (String × ArgDef) :=
  [("limit", ⟨"limit", .int⟩), ("skip", ⟨"skip", .int⟩), ("sort", ⟨"sort", .string⟩)]
    ++ (if exposeQL then [("where", ⟨"where", .json⟩)] else [])

/-- Accumulator of the attribute loop in `internals.buildQueryFields`. -/
structure BuildArgsState where
  findOneArgs : List (String × ArgDef)
  findManyArgs : List (String × ArgDef)
  warnings : List String

/-- One iteration of the attribute loop (src/adapter.js 180-201): skip keys
    already present in `findManyArgs` (warning only when
    `exposeQueryLanguage` is set), skip `collection` rules, route
    primary-key/unique attributes to `findOneArgs` and the rest to
    `findManyArgs`.  Warnings are recorded as `identity.key`, the
    identifying part of the `console.warn` text. -/
def processAttr (exposeQL : Bool) (identLower : String) (st : BuildArgsState)
    (key : String) (rules : AttrRules) : Except JsError BuildArgsState :=
  if (jsLookup st.findManyArgs key).isSome then
    if exposeQL then
      .ok ⟨st.findOneArgs, st.findManyArgs, st.warnings ++ [identLower ++ "." ++ key]⟩
    else .ok st
  else if rules.collection.isSome then .ok st
  else if rules.primaryKey.getD false || rules.unique.getD false then do
    let t ← convertToGraphQlType rules.type
    .ok ⟨setProp st.findOneArgs key ⟨key, t⟩, st.findManyArgs, st.warnings⟩
  else do
    let t ← convertToGraphQlType rules.type
    .ok ⟨st.findOneArgs, setProp st.findManyArgs key ⟨key, t⟩, st.warnings⟩

/-- The whole attribute loop of `internals.buildQueryFields`. -/
def buildArgs (exposeQL : Bool) (identLower : String) (attrs : List (String × AttrRules)) :
    Except JsError BuildArgsState :=
  attrs.foldlM (fun st p => processAttr exposeQL identLower st p.1 p.2)
    ⟨[], initFindManyArgs exposeQL, []⟩

/-- Embedding of `internals.buildQueryFields` (src/adapter.js 148-216):
    build the singular and plural query fields and `_.assign` them into
    `internals.defaults.modelQueries`.  Returns the updated defaults and
    the warnings emitted. -/
def buildQueryFields (d : Defaults) (collection : Collection) :
    Except JsError (Defaults × List String) := do
  let collectionIdentity := lodashCapitalize collection.identity
  let st ← buildArgs d.exposeQueryLanguage (jsToLowerCase collectionIdentity)
    collection.attributes
  let oneField : QueryField :=
    ⟨.ref (jsLookup d.types collectionIdentity), st.findOneArgs, .findOne collection⟩
  let manyField : QueryField :=
    ⟨.listOf (jsLookup d.types collectionIdentity), st.findManyArgs, .findMany collection⟩
  let fields := [(jsToLowerCase collectionIdentity, oneField),
                 (jsToLowerCase collectionIdentity ++ "s", manyField)]
  .ok ({ d with modelQueries := fields.foldl (fun mq p => setProp mq p.1 p.2) d.modelQueries },
       st.warnings)

/-- Embedding of `internals.getQueries` (src/adapter.js 60-70): pass 1
    registers every output type, pass 2 registers every collection's query
    fields; the root object's lazy `fields` thunk exposes
    `internals.defaults.modelQueries`. -/
def getQueries (d : Defaults) : Except JsError (Defaults × List String) :=
  let d1 := d.collections.foldl (fun acc p => buildType acc p.2) d
  d1.collections.foldlM
    (fun acc p => do
      let (d2, w) ← buildQueryFields acc.1 p.2
      .ok (d2, acc.2 ++ w))
    (d1, ([] : List String))

/-- Embedding of the `Joi.assert` against `internals.configSchema`
    (src/adapter.js 13-16, 46): `collections` is required but
    `Joi.alternatives().try(Joi.object(), Joi.array())` accepts any object
    or array, empty ones included; `exposeQueryLanguage` is an optional
    boolean (well-typed by construction here). -/
def joiValidateConfig (config : Config) : Bool :=
  config.collections.isSome

/-- Embedding of `module.exports.getGraphQlSchema` (src/adapter.js 44-53).
    The module-level mutable `internals.defaults` is the explicit `st`
    argument; `_.defaults(config, internals.defaults)` keeps the config's
    own keys and inherits `modelQueries`/`types` (which the config schema
    cannot contain) from the previous module state.  Returns the schema,
    the module state after the call, and the warnings printed. -/
def getGraphQlSchema (config : Config) (st : Defaults) :
    Except JsError (Schema × Defaults × List String) :=
  if joiValidateConfig config then
    let d : Defaults :=
      ⟨config.collections.getD st.collections,
       config.exposeQueryLanguage.getD st.exposeQueryLanguage,
       st.modelQueries, st.types⟩
    match getQueries d with
    | .error e => .error e
    | .ok (d2, ws) => .ok (⟨d2.modelQueries⟩, d2, ws)
  else .error .configurationError

/-- A GraphQL literal syntax node as the raw-filter scalar receives it:
    `kind` is the node's kind string, `value` the lexed value (a digit
    string for Int/Float nodes, a boolean or string for the others),
    `values` the element nodes of a list literal and `fields` the
    name/value pairs of an object literal. -/
inductive AstNode where
  | mk (kind : String) (value : JsValue) (values : List AstNode)
       (fields : List (String × AstNode))

/-- The value of a maximal leading digit run, with its length and the rest. -/
def readDigitsAux : List Char → Nat → Nat → Nat × Nat × List Char
  | [], v, n => (v, n, [])
  | c :: cs, v, n =>
    if c.isDigit then readDigitsAux cs (v * 10 + (c.toNat - 48)) (n + 1)
    else (v, n, c :: cs)

/-- Embedding of `parseInt(s, 10)` on the strings the GraphQL lexer emits
    for Int nodes: optional sign then digits; `none` is NaN. -/
def parseIntString (s : String) : Option Int :=
  let signAndRest : Int × List Char :=
    match s.data with
    | '-' :: cs => (-1, cs)
    | '+' :: cs => (1, cs)
    | cs => (1, cs)
  let (v, n, _) := readDigitsAux signAndRest.2 0 0
  if n = 0 then none else some (signAndRest.1 * v)

/-- Embedding of `parseFloat` on the numeric literals the GraphQL lexer
    emits for Float nodes: sign, integer part, optional fraction, optional
    exponent; `none` is NaN. -/
def parseFloatString (s : String) : Option Rat :=
  let signAndRest : Int × List Char :=
    match s.data with
    | '-' :: cs => (-1, cs)
    | '+' :: cs => (1, cs)
    | cs => (1, cs)
  let (ip, ni, r1) := readDigitsAux signAndRest.2 0 0
  let fracAndRest : Nat × Nat × List Char :=
    match r1 with
    | '.' :: cs => readDigitsAux cs 0 0
    | _ => (0, 0, r1)
  let (fp, nf, r2) := fracAndRest
  if ni = 0 ∧ nf = 0 then none
  else
    let expVal : Int :=
      match r2 with
      | 'e' :: rest | 'E' :: rest =>
        let esAndRest : Int × List Char :=
          match rest with
          | '-' :: r => (-1, r)
          | '+' :: r => (1, r)
          | r => (1, r)
        let (ev, ne, _) := readDigitsAux esAndRest.2 0 0
        if ne = 0 then 0 else esAndRest.1 * ev
      | _ => 0
    let mantNum : Int := signAndRest.1 * ((ip : Int) * (10 : Int) ^ nf + (fp : Int))
    if 0 ≤ expVal then
      some (Rat.divInt (mantNum * (10 : Int) ^ expVal.toNat) ((10 : Int) ^ nf))
    else
      some (Rat.divInt mantNum ((10 : Int) ^ nf * (10 : Int) ^ (-expVal).toNat))

/-- Embedding of `GraphQl.GraphQLInt.parseLiteral` on a node whose kind is
    already `IntValue`: `parseInt(ast.value, 10)` kept when it fits in 32
    bits, otherwise the coercion yields null. -/
def graphQlIntParseLit : JsValue → JsValue
  | .str s =>
    match parseIntString s with
    | some n => if -2147483648 ≤ n ∧ n ≤ 2147483647 then .num n else .null
    | none => .null
  | _ => .null

/-- Embedding of `GraphQl.GraphQLFloat.parseLiteral` on a node whose kind
    is already `FloatValue`: `parseFloat(ast.value)`; NaN coerces to null. -/
def graphQlFloatParseLit : JsValue → JsValue
  | .str s =>
    match parseFloatString s with
    | some q => .num q
    | none => .null
  | _ => .null

/-- Embedding of JavaScript `String(v)` on the value shapes an EnumValue
    node can carry (the lexer always stores the enum name string; the other
    arms only make the function total). -/
def jsStringCoerce : JsValue → String
  | .str s => s
  | .bool true => "true"
  | .bool false => "false"
  | .null => "null"
  | .undefined => "undefined"
  | .num q => toString q
  | .arr _ => ""
  | .obj _ => "[object Object]"

mutual

/-- Embedding of `internals.GraphQLJson.parseLiteral` together with the
    dispatch table of `internals.getParser` (src/adapter.js 29-34 and
    245-271), with each returned closure inlined at its kind.  The default
    arm of `getParser` returns `null`; `parser.call` then throws, which is
    the `unsupportedLiteralKind` failure. -/
def graphQlJsonParseLiteral : AstNode → Except JsError JsValue
  | .mk kind value values fields =>
    if kind = "IntValue" then .ok (graphQlIntParseLit value)
    else if kind = "FloatValue" then .ok (graphQlFloatParseLit value)
    else if kind = "BooleanValue" then .ok value
    else if kind = "StringValue" then .ok value
    else if kind = "EnumValue" then .ok (.str (jsStringCoerce value))
    else if kind = "ListValue" then
      match parseListNodes values with
      | .ok vs => .ok (.arr vs)
      | .error e => .error e
    else if kind = "ObjectValue" then
      match parseObjectFields [] fields with
      | .ok fs => .ok (.obj fs)
      | .error e => .error e
    else .error .unsupportedLiteralKind

/-- Embedding of `tree.values.map(node => internals.GraphQLJson.parseLiteral(node))`:
    parse every list element in source order. -/
def parseListNodes : List AstNode → Except JsError (List JsValue)
  | [] => .ok []
  | t :: ts =>
    match graphQlJsonParseLiteral t with
    | .error e => .error e
    | .ok v =>
      match parseListNodes ts with
      | .error e => .error e
      | .ok vs => .ok (v :: vs)

/-- Embedding of the fields reduce of the object case: a left fold that
    assigns each parsed field value under its field name. -/
def parseObjectFields (acc : List (String × JsValue)) :
    List (String × AstNode) → Except JsError (List (String × JsValue))
  | [] => .ok acc
  | (n, t) :: rest =>
    match graphQlJsonParseLiteral t with
    | .error e => .error e
    | .ok v => parseObjectFields (setProp acc n v) rest

end

example : parseIntString "-42" = some (-42) := by decide
example : parseFloatString "2.5" = some (Rat.divInt 5 2) := by decide
example : graphQlJsonParseLiteral (.mk "IntValue" (.str "7") [] []) = .ok (.num 7) := by rfl

/-- A small user collection used by the concrete examples: a string
    primary key, a scalar attribute and a hasMany relation to articles. -/
def userColl : Collection :=
  ⟨"user",
   [("id", { type := some "string", primaryKey := some true }),
    ("firstName", { type := some "string" }),
    ("articles", { collection := some "article", via := some "author" })],
   "id",
   [.obj [("id", .str "1"), ("firstName", .str "Sam")],
    .obj [("id", .str "2"), ("firstName", .str "Ann")]]⟩

/-- An article collection with a belongsTo relation back to users. -/
def articleColl : Collection :=
  ⟨"article",
   [("id", { type := some "string", primaryKey := some true }),
    ("title", { type := some "string" }),
    ("author", { model := some "user", type := some "string" })],
   "id",
   [.obj [("id", .str "a1"), ("title", .str "T1"), ("author", .str "1")],
    .obj [("id", .str "a2"), ("title", .str "T2"), ("author", .str "2")],
    .obj [("id", .str "a3"), ("title", .str "T3"), ("author", .str "1")]]⟩

/-- A collection whose identity "users" collides with the plural query
    field derived from the identity "user". -/
def usersColl : Collection :=
  ⟨"users", [("id", { type := some "string", primaryKey := some true })], "id", []⟩

def cfgUser : Config := { collections := some [("user", userColl)] }

def cfgArticle : Config := { collections := some [("article", articleColl)] }

/-- First build call, started from the module-load state. -/
def leakRun1 := getGraphQlSchema cfgUser initialDefaults

/-- The module state `internals.defaults` after the first build call. -/
def leakState1 : Defaults :=
  match leakRun1 with
  | .ok (_, d, _) => d
  | .error _ => initialDefaults

/-- Second, independent build call with a different configuration. -/
def leakRun2 := getGraphQlSchema cfgArticle leakState1

/-- Claim C1: independent `getGraphQlSchema` calls were claimed to start
    from configuration defaults with no registry state leaking between
    them.  Evaluating the code at the failing input shows the opposite:
    the second build (collections = article only) still exposes the first
    build's `user`/`users` root fields, because the merged defaults
    inherit the module-level `modelQueries` registry. -/
theorem claim_C1_state_leak :
  (leakRun2.map (fun r => r.1.queryFields.map Prod.fst))
    = .ok ["user", "users", "article", "articles"] := rfl

/-- Claim C2 counterexample: an empty `collections` mapping passes
    `Joi.assert` (the alternatives schema only requires presence), so the
    build returns a schema instead of failing with a configuration error. -/
theorem claim_C2_counterexample :
  getGraphQlSchema { collections := some [] } initialDefaults
    = .ok (⟨[]⟩, ⟨[], false, [], []⟩, []) := rfl

/-- Claim C2 (amended): `getGraphQlSchema` fails synchronously with a
    `ConfigurationError` exactly when `collections` is absent; an empty
    collections mapping or sequence passes validation and yields a schema
    (exposing whatever the registry already held), not an error. -/
theorem claim_C2_amended (config : Config) (st : Defaults) :
  (config.collections = none →
    getGraphQlSchema config st = .error .configurationError)
  ∧ (config.collections = some [] →
    getGraphQlSchema config st =
      .ok (⟨st.modelQueries⟩,
        ⟨[], config.exposeQueryLanguage.getD st.exposeQueryLanguage,
          st.modelQueries, st.types⟩,
        [])) := by
  obtain ⟨cs, eql⟩ := config
  constructor
  · intro h
    rw [show (⟨cs, eql⟩ : Config).collections = cs from rfl] at h
    subst h
    rfl
  · intro h
    rw [show (⟨cs, eql⟩ : Config).collections = cs from rfl] at h
    subst h
    rfl

/-- Witness for the amended C2 theorem at concrete inputs. -/
theorem claim_C2_amended_witness :
  getGraphQlSchema ⟨none, none⟩ initialDefaults = .error .configurationError
  ∧ getGraphQlSchema ⟨some [], none⟩ initialDefaults
      = .ok (⟨[]⟩, ⟨[], false, [], []⟩, []) :=
  ⟨(claim_C2_amended ⟨none, none⟩ initialDefaults).1 rfl,
   (claim_C2_amended ⟨some [], none⟩ initialDefaults).2 rfl⟩

/-- Claim C7 counterexample: the converter is not total on attribute-type
    tags - when the tag is absent, `type.toLowerCase()` throws a
    `TypeError` instead of defaulting to the string scalar. -/
theorem claim_C7_counterexample :
  convertToGraphQlType none = .error .typeError := rfl

/-- Claim C7 (amended): on every present tag the converter is total with
    no failure path; it matches integer, boolean, float and json
    case-insensitively and returns the string scalar for every other tag
    (string itself included); only an absent tag fails. -/
theorem claim_C7_amended (s : String) :
  convertToGraphQlType (some s) =
    .ok (if jsToLowerCase s = "integer" then .int
         else if jsToLowerCase s = "boolean" then .boolean
         else if jsToLowerCase s = "float" then .float
         else if jsToLowerCase s = "json" then .json
         else .string) := by
  unfold convertToGraphQlType
  split <;> simp_all
  split <;> simp_all

def cfgClash : Config :=
  { collections := some [("user", userColl), ("users", usersColl)] }

/-- Build over two collections whose derived query-field names collide. -/
def clashRun := getGraphQlSchema cfgClash initialDefaults

/-- Claim C10: when the identities `user` and `users` both derive a query
    field named `users`, the later `buildQueryFields` registration
    silently overwrites the earlier one: the built schema exposes a single
    `users` field, the `users` collection's singular lookup, and the build
    raises no error and no warning. -/
theorem claim_C10_overwrite :
  (clashRun.map (fun r => r.1.queryFields.map Prod.fst))
    = .ok ["user", "users", "userss"]
  ∧ (clashRun.map (fun r => (jsLookup r.1.queryFields "users").map (fun q => q.resolve)))
      = .ok (some (.findOne usersColl))
  ∧ (clashRun.map (fun r => r.2.2)) = .ok [] :=
  ⟨rfl, rfl, rfl⟩

/-- Reading any named property off a bare scalar yields `undefined`. -/
theorem jsGet_bare (v : JsValue) (k : String) (h : isBareScalar v = true) :
    jsGet v k = .ok .undefined := by
  cases v <;> simp_all [isBareScalar, jsGet]

/-- Claim C3: the belongsTo resolver determines the foreign identifier by
    the three-step fallback (nested record's primary-key property, parent's
    primary-key-named attribute, raw field value), injects it into the
    criteria under the referenced collection's primary key and delegates to
    that collection's singular query field resolver - so the three parent
    shapes produce identical resolved output. -/
theorem claim_C3_belongs_to (d : Defaults) (key modelName : String) (D : Collection)
    (q : QueryField) (v : JsValue) (criteria : List (String × JsValue))
    (hD : jsLookup d.collections modelName = some D)
    (hq : jsLookup d.modelQueries (jsToLowerCase modelName) = some q)
    (hres : q.resolve = ResolveTag.findOne D)
    (hv : truthy v = true) (hb : isBareScalar v = true)
    (hk : key ≠ D.primaryKey) :
    modelFieldResolve d key modelName
        (.obj [(key, .obj [(D.primaryKey, v)])]) (.obj criteria)
      = .ok (waterlineFindOne D.records (.obj (setProp criteria D.primaryKey v)))
    ∧ modelFieldResolve d key modelName
        (.obj [(key, v), (D.primaryKey, v)]) (.obj criteria)
      = .ok (waterlineFindOne D.records (.obj (setProp criteria D.primaryKey v)))
    ∧ modelFieldResolve d key modelName
        (.obj [(key, v)]) (.obj criteria)
      = .ok (waterlineFindOne D.records (.obj (setProp criteria D.primaryKey v))) := by
  cases v <;> refine ⟨?_, ?_, ?_⟩ <;>
    simp_all [modelFieldResolve, jsGet, jsLookup, jsSetProp, runQueryResolve,
      bind, Except.bind, pure, Except.pure, hk, isBareScalar, truthy]

def cfgBoth : Config :=
  { collections := some [("user", userColl), ("article", articleColl)] }

/-- A complete build over the user/article pair; the resulting module state
    carries both registries fully populated. -/
def exRun := getGraphQlSchema cfgBoth initialDefaults

def exDefaults : Defaults :=
  match exRun with
  | .ok (_, d, _) => d
  | .error _ => initialDefaults

/-- The singular `user` query field registered by the example build. -/
def exUserSingular : QueryField :=
  (jsLookup exDefaults.modelQueries "user").getD ⟨.ref none, [], .findOne userColl⟩

/-- Witness for C3 at a concrete input: resolving `article.author` for the
    three parent shapes (populated record, flat identifier, bare scalar)
    returns the same user record. -/
theorem claim_C3_belongs_to_witness :
    jsLookup exDefaults.collections "user" = some userColl
    ∧ jsLookup exDefaults.modelQueries (jsToLowerCase "user") = some exUserSingular
    ∧ exUserSingular.resolve = ResolveTag.findOne userColl
    ∧ truthy (.str "1") = true
    ∧ isBareScalar (.str "1") = true
    ∧ "author" ≠ userColl.primaryKey
    ∧ modelFieldResolve exDefaults "author" "user"
        (.obj [("author", .obj [(userColl.primaryKey, .str "1")])]) (.obj [])
      = .ok (waterlineFindOne userColl.records
          (.obj (setProp [] userColl.primaryKey (.str "1"))))
    ∧ modelFieldResolve exDefaults "author" "user"
        (.obj [("author", .str "1"), (userColl.primaryKey, .str "1")]) (.obj [])
      = .ok (waterlineFindOne userColl.records
          (.obj (setProp [] userColl.primaryKey (.str "1"))))
    ∧ modelFieldResolve exDefaults "author" "user"
        (.obj [("author", .str "1")]) (.obj [])
      = .ok (waterlineFindOne userColl.records
          (.obj (setProp [] userColl.primaryKey (.str "1")))) := by
  have h := claim_C3_belongs_to exDefaults "author" "user" userColl exUserSingular
    (.str "1") [] rfl rfl rfl rfl rfl (by decide)
  exact ⟨rfl, rfl, rfl, rfl, rfl, by decide, h.1, h.2.1, h.2.2⟩

/-- Claim C4: a hasMany attribute builds a field typed as a list of the
    referenced collection's output type, whose resolver injects the
    parent's primary-key value into the criteria under the lowercased
    `via` name and delegates to the referenced collection's plural query
    field with the criteria wrapped in a `where` object - resolving to
    exactly the records whose `via` attribute equals the parent's
    primary-key value. -/
theorem claim_C4_has_many (d : Defaults) (parent C : Collection) (rules : AttrRules)
    (f cname key : String) (q : QueryField) (object p : JsValue) (meta : TypeMeta)
    (hmodel : rules.model = none)
    (hcoll : rules.collection = some cname)
    (hvia : rules.via = some f)
    (hq : jsLookup d.modelQueries (jsToLowerCase cname ++ "s") = some q)
    (hres : q.resolve = ResolveTag.findMany C)
    (hp : jsGet object parent.primaryKey = .ok p)
    (hty : jsLookup d.types (lodashCapitalize cname) = some meta) :
    attrField d parent key rules
      = .ok ⟨.listOf (some meta), some (.collectionRel parent rules)⟩
    ∧ collectionFieldResolve d parent rules object (.obj [])
      = .ok (.arr (C.records.filter
          (fun r => jsBeq (jsGetTotal r (jsToLowerCase f)) p))) := by
  constructor
  · simp [attrField, hmodel, hcoll, hty]
  · simp [collectionFieldResolve, hvia, hcoll, hp, hq, hres, jsSetProp, setProp,
      runQueryResolve, waterlineFind, whereClause, matchesWhere, jsLookup,
      bind, Except.bind, List.all_cons, List.all_nil, Bool.and_true]

/-- The plural `articles` query field registered by the example build. -/
def exArticlesPlural : QueryField :=
  (jsLookup exDefaults.modelQueries "articles").getD ⟨.ref none, [], .findMany articleColl⟩

/-- The `Article` output type registered by the example build. -/
def exArticleMeta : TypeMeta :=
  (jsLookup exDefaults.types "Article").getD ⟨"", ""⟩

/-- Witness for C4 at a concrete input: user 1's `articles` field selects
    exactly the article records whose `author` is "1". -/
theorem claim_C4_has_many_witness :
    jsLookup exDefaults.modelQueries (jsToLowerCase "article" ++ "s") = some exArticlesPlural
    ∧ exArticlesPlural.resolve = ResolveTag.findMany articleColl
    ∧ jsGet (.obj [("id", .str "1"), ("firstName", .str "Sam")]) userColl.primaryKey
        = .ok (.str "1")
    ∧ jsLookup exDefaults.types (lodashCapitalize "article") = some exArticleMeta
    ∧ attrField exDefaults userColl "articles"
        { collection := some "article", via := some "author" }
      = .ok ⟨.listOf (some exArticleMeta), some (.collectionRel userColl
          { collection := some "article", via := some "author" })⟩
    ∧ collectionFieldResolve exDefaults userColl
        { collection := some "article", via := some "author" }
        (.obj [("id", .str "1"), ("firstName", .str "Sam")]) (.obj [])
      = .ok (.arr (articleColl.records.filter
          (fun r => jsBeq (jsGetTotal r (jsToLowerCase "author")) (.str "1")))) := by
  have h := claim_C4_has_many exDefaults userColl articleColl
    { collection := some "article", via := some "author" }
    "author" "article" "articles" exArticlesPlural
    (.obj [("id", .str "1"), ("firstName", .str "Sam")]) (.str "1") exArticleMeta
    rfl rfl rfl rfl rfl rfl rfl
  exact ⟨rfl, rfl, rfl, rfl, h.1, h.2⟩

/-- The seven literal kinds `internals.getParser` dispatches on. -/
def supportedLiteralKinds : List String :=
  ["IntValue", "FloatValue", "BooleanValue", "StringValue", "EnumValue",
   "ListValue", "ObjectValue"]

/-- Claim C8: for every literal syntax node whose kind is not one of int,
    float, boolean, string, enum, list or object, the raw-filter scalar's
    literal parsing fails with the unsupported-literal-kind error.  The
    schema build (`getGraphQlSchema`) never invokes the literal parser, so
    this failure can only surface during a single query's execution. -/
theorem claim_C8_unsupported_kind (kind : String) (value : JsValue)
    (values : List AstNode) (fields : List (String × AstNode))
    (h : keyMem supportedLiteralKinds kind = false) :
    graphQlJsonParseLiteral (.mk kind value values fields)
      = .error .unsupportedLiteralKind := by
  unfold graphQlJsonParseLiteral
  split_ifs with h1 h2 h3 h4 h5 h6 h7 <;>
    first
    | rfl
    | (subst_vars; simp [keyMem, supportedLiteralKinds] at h)

/-- Witness for C8 at a concrete input: a `Variable` node (a query
    variable inside a raw-filter literal) is rejected. -/
theorem claim_C8_unsupported_kind_witness :
    keyMem supportedLiteralKinds "Variable" = false
    ∧ graphQlJsonParseLiteral (.mk "Variable" .undefined [] [])
        = .error .unsupportedLiteralKind :=
  ⟨rfl, claim_C8_unsupported_kind "Variable" .undefined [] [] rfl⟩

/-- Membership test `keyMem` is false exactly on the non-members. -/
theorem keyMem_eq_false_iff (l : List String) (k : String) :
    keyMem l k = false ↔ k ∉ l := by
  induction l with
  | nil => simp [keyMem]
  | cons a r ih =>
    by_cases h : a = k
    · subst h; simp [keyMem]
    · simp [keyMem, h, ih]
      exact fun _ hka => h hka.symm

/-- Membership test `keyMem` distributes over append. -/
theorem keyMem_append (l1 l2 : List String) (k : String) :
    keyMem (l1 ++ l2) k = (keyMem l1 k || keyMem l2 k) := by
  induction l1 with
  | nil => simp [keyMem]
  | cons a r ih => by_cases h : a = k <;> simp [keyMem, h, ih]

/-- Assigning a fresh key appends the binding. -/
theorem setProp_fresh {α : Type} (l : List (String × α)) (k : String) (v : α)
    (h : keyMem (l.map Prod.fst) k = false) : setProp l k v = l ++ [(k, v)] := by
  induction l with
  | nil => rfl
  | cons p r ih =>
    by_cases hpk : p.1 = k
    · simp [keyMem, hpk] at h
    · simp only [keyMem, List.map_cons, hpk, if_false] at h
      simp [setProp, hpk, ih h]

/-- A lookup succeeds exactly when the key is bound. -/
theorem jsLookup_isSome {α : Type} (l : List (String × α)) (k : String) :
    (jsLookup l k).isSome = keyMem (l.map Prod.fst) k := by
  induction l with
  | nil => simp [jsLookup, keyMem]
  | cons p r ih => by_cases h : p.1 = k <;> simp [jsLookup, keyMem, h, ih]

/-- A key bound in the prefix is looked up in the prefix. -/
theorem jsLookup_append_left {α : Type} (l1 l2 : List (String × α)) (k : String)
    (h : keyMem (l1.map Prod.fst) k = true) :
    jsLookup (l1 ++ l2) k = jsLookup l1 k := by
  induction l1 with
  | nil => simp [keyMem] at h
  | cons p r ih =>
    by_cases hpk : p.1 = k
    · simp [jsLookup, hpk]
    · simp only [keyMem, List.map_cons, hpk, if_false] at h
      simp [jsLookup, hpk, ih h]

/-- Length and source-order element correspondence for list-literal
    parsing. -/
theorem parseListNodes_spec (ns : List AstNode) :
    ∀ vs, parseListNodes ns = .ok vs →
      vs.length = ns.length
      ∧ ∀ i (h1 : i < ns.length) (h2 : i < vs.length),
          graphQlJsonParseLiteral (ns.get ⟨i, h1⟩) = .ok (vs.get ⟨i, h2⟩) := by
  induction ns with
  | nil =>
    intro vs h
    simp only [parseListNodes] at h
    cases h
    exact ⟨rfl, fun i h1 _ => absurd h1 (by simp)⟩
  | cons t ts ih =>
    intro vs h
    simp only [parseListNodes] at h
    cases hp : graphQlJsonParseLiteral t with
    | error e => rw [hp] at h; cases h
    | ok v =>
      rw [hp] at h
      cases hrest : parseListNodes ts with
      | error e => rw [hrest] at h; cases h
      | ok ws =>
        rw [hrest] at h
        cases h
        obtain ⟨hlen, hel⟩ := ih ws hrest
        refine ⟨by simp [hlen], ?_⟩
        intro i h1 h2
        cases i with
        | zero => simpa using hp
        | succ j =>
          have := hel j (by simpa using h1) (by simpa [hlen] using h2)
          simpa using this

/-- Key order of object-literal parsing, generalized over the reduce
    accumulator: with unique field names that are fresh for the
    accumulator, every assignment appends, so the keys come out as the
    accumulator's keys followed by the field names in source order. -/
theorem parseObjectFields_keys (fs : List (String × AstNode)) :
    ∀ (acc : List (String × JsValue)) l,
    (fs.map Prod.fst).Nodup →
    (∀ k, k ∈ fs.map Prod.fst → keyMem (acc.map Prod.fst) k = false) →
    parseObjectFields acc fs = .ok l →
    l.map Prod.fst = acc.map Prod.fst ++ fs.map Prod.fst := by
  induction fs with
  | nil =>
    intro acc l _ _ h
    simp only [parseObjectFields] at h
    cases h
    simp
  | cons p rest ih =>
    intro acc l hnd hdisj h
    simp only [parseObjectFields] at h
    cases hp : graphQlJsonParseLiteral p.2 with
    | error e => rw [hp] at h; cases h
    | ok v =>
      simp only [hp] at h
      have hfresh : keyMem (acc.map Prod.fst) p.1 = false :=
        hdisj p.1 (by simp)
      rw [setProp_fresh acc p.1 v hfresh] at h
      have hnd' : (rest.map Prod.fst).Nodup := by
        simpa using hnd.of_cons
      have hdisj' : ∀ k, k ∈ rest.map Prod.fst →
          keyMem ((acc ++ [(p.1, v)]).map Prod.fst) k = false := by
        intro k hk
        have hkp : p.1 ≠ k := by
          intro he
          subst he
          exact (List.nodup_cons.mp (by simpa using hnd)).1 hk
        simp [keyMem_append, hdisj k (by simp [hk]), keyMem, hkp]
      have := ih (acc ++ [(p.1, v)]) l hnd' hdisj' h
      simpa using this

/-- The example literal node for `{a: 1, b: [true, "x"], c: 2.5}`. -/
def exampleLiteralNode : AstNode :=
  .mk "ObjectValue" .undefined []
    [("a", .mk "IntValue" (.str "1") [] []),
     ("b", .mk "ListValue" .undefined
        [.mk "BooleanValue" (.bool true) [] [],
         .mk "StringValue" (.str "x") [] []] []),
     ("c", .mk "FloatValue" (.str "2.5") [] [])]

/-- Claim C9: parsing the literal node for `{a: 1, b: [true, "x"], c: 2.5}`
    yields the native mapping with native number, boolean, string, list and
    mapping values, preserving key and element order; in general, list
    nodes parse their elements recursively in source order, and object
    nodes produce insertion-ordered string-keyed mappings. -/
theorem claim_C9_literal_roundtrip :
    graphQlJsonParseLiteral exampleLiteralNode
      = .ok (.obj [("a", .num 1), ("b", .arr [.bool true, .str "x"]),
                   ("c", .num (Rat.divInt 5 2))])
    ∧ (∀ ns vs, parseListNodes ns = .ok vs →
        vs.length = ns.length
        ∧ ∀ i (h1 : i < ns.length) (h2 : i < vs.length),
            graphQlJsonParseLiteral (ns.get ⟨i, h1⟩) = .ok (vs.get ⟨i, h2⟩))
    ∧ (∀ fs l, (fs.map Prod.fst).Nodup → parseObjectFields [] fs = .ok l →
        l.map Prod.fst = fs.map Prod.fst) := by
  refine ⟨rfl, parseListNodes_spec, ?_⟩
  intro fs l hnd h
  simpa using parseObjectFields_keys fs [] l hnd (by simp [keyMem]) h

/-- Witness for C9's general conjuncts at concrete inputs. -/
theorem claim_C9_literal_roundtrip_witness :
    parseListNodes [.mk "BooleanValue" (.bool true) [] []] = .ok [.bool true]
    ∧ graphQlJsonParseLiteral (AstNode.mk "BooleanValue" (.bool true) [] [])
        = .ok (.bool true)
    ∧ (([("a", AstNode.mk "IntValue" (.str "1") [] []),
         ("c", AstNode.mk "FloatValue" (.str "2.5") [] [])].map Prod.fst).Nodup)
    ∧ parseObjectFields []
        [("a", .mk "IntValue" (.str "1") [] []),
         ("c", .mk "FloatValue" (.str "2.5") [] [])]
      = .ok [("a", .num 1), ("c", .num (Rat.divInt 5 2))]
    ∧ ([("a", JsValue.num 1), ("c", JsValue.num (Rat.divInt 5 2))].map Prod.fst)
      = ([("a", AstNode.mk "IntValue" (.str "1") [] []),
          ("c", AstNode.mk "FloatValue" (.str "2.5") [] [])].map Prod.fst) := by
  refine ⟨rfl, ?_, by decide, rfl, ?_⟩
  · exact (claim_C9_literal_roundtrip.2.1 [.mk "BooleanValue" (.bool true) [] []]
      [.bool true] rfl).2 0 (by decide) (by decide)
  · exact claim_C9_literal_roundtrip.2.2
      [("a", .mk "IntValue" (.str "1") [] []),
       ("c", .mk "FloatValue" (.str "2.5") [] [])]
      [("a", .num 1), ("c", .num (Rat.divInt 5 2))] (by decide) rfl

/-- Key names already bound in `findManyArgs` before the attribute loop
    runs: the built-in pagination arguments, plus `where` when the raw
    filter is enabled. -/
def builtinArgKeys (exposeQL : Bool) : List String :=
  (initFindManyArgs exposeQL).map Prod.fst

/-- The identifying test of the attribute loop:
    `(rules.hasOwnProperty('primaryKey') && rules.primaryKey) ||
     (rules.hasOwnProperty('unique') && rules.unique)`. -/
def isIdentifying (r : AttrRules) : Bool :=
  r.primaryKey.getD false || r.unique.getD false

/-- The singular-field argument the loop derives from one attribute:
    `some` exactly when the attribute survives the collision check, is not
    a hasMany rule, tests identifying, and its type converts. -/
def identifyingEntry (exposeQL : Bool) (p : String × AttrRules) :
    Option (String × ArgDef) :=
  if keyMem (builtinArgKeys exposeQL) p.1 then none
  else if p.2.collection.isSome then none
  else if isIdentifying p.2 then
    match convertToGraphQlType p.2.type with
    | .ok t => some (p.1, ⟨p.1, t⟩)
    | .error _ => none
  else none

/-- The plural-field argument the loop derives from one attribute. -/
def filterableEntry (exposeQL : Bool) (p : String × AttrRules) :
    Option (String × ArgDef) :=
  if keyMem (builtinArgKeys exposeQL) p.1 then none
  else if p.2.collection.isSome then none
  else if isIdentifying p.2 then none
  else
    match convertToGraphQlType p.2.type with
    | .ok t => some (p.1, ⟨p.1, t⟩)
    | .error _ => none

/-- Characterization of the attribute loop of `internals.buildQueryFields`,
    generalized over the running state: with unique attribute names, any
    collision being a collision with the built-in argument names, every
    eligible attribute type converting, and attribute names fresh for the
    accumulated singular arguments, the loop succeeds and appends exactly
    the identifying entries to `findOneArgs`, exactly the filterable
    entries to `findManyArgs`, and warns exactly on the built-in-named
    attributes when the raw filter is enabled. -/
theorem buildArgs_fold (exposeQL : Bool) (ident : String) :
    ∀ (attrs : List (String × AttrRules)) (st : BuildArgsState),
    (attrs.map Prod.fst).Nodup →
    (∀ k, k ∈ attrs.map Prod.fst →
        keyMem (st.findManyArgs.map Prod.fst) k = keyMem (builtinArgKeys exposeQL) k) →
    (∀ p, p ∈ attrs → keyMem (builtinArgKeys exposeQL) p.1 = false →
        p.2.collection = none → (convertToGraphQlType p.2.type).isOk = true) →
    (∀ k, k ∈ attrs.map Prod.fst → keyMem (st.findOneArgs.map Prod.fst) k = false) →
    ∃ st2,
      attrs.foldlM (fun s p => processAttr exposeQL ident s p.1 p.2) st = .ok st2
      ∧ st2.findOneArgs = st.findOneArgs ++ attrs.filterMap (identifyingEntry exposeQL)
      ∧ st2.findManyArgs = st.findManyArgs ++ attrs.filterMap (filterableEntry exposeQL)
      ∧ st2.warnings = st.warnings ++
          (if exposeQL then
            (attrs.filter (fun p => keyMem (builtinArgKeys exposeQL) p.1)).map
              (fun p => ident ++ "." ++ p.1)
          else []) := by
  intro attrs
  induction attrs with
  | nil =>
    intro st _ _ _ _
    exact ⟨st, rfl, by simp, by simp, by simp⟩
  | cons p rest ih =>
    intro st hnd hinv hconv hone
    obtain ⟨k, r⟩ := p
    have hk_head : k ∈ ((k, r) :: rest).map Prod.fst := by simp
    have hnd' : (rest.map Prod.fst).Nodup := by simpa using hnd.of_cons
    have hk_not_rest : k ∉ rest.map Prod.fst :=
      (List.nodup_cons.mp (by simpa using hnd)).1
    have hcol : (jsLookup st.findManyArgs k).isSome
        = keyMem (builtinArgKeys exposeQL) k := by
      rw [jsLookup_isSome]; exact hinv k hk_head
    by_cases hB : keyMem (builtinArgKeys exposeQL) k = true
    · -- collision with a built-in argument name: skip, maybe warn
      have hstep : processAttr exposeQL ident st k r =
          .ok (if exposeQL then
                ⟨st.findOneArgs, st.findManyArgs, st.warnings ++ [ident ++ "." ++ k]⟩
              else st) := by
        rw [processAttr, if_pos (by rw [hcol]; exact hB)]
        by_cases he : exposeQL <;> simp [he]
      set st1 := (if exposeQL then
          ⟨st.findOneArgs, st.findManyArgs, st.warnings ++ [ident ++ "." ++ k]⟩
        else st : BuildArgsState) with hst1
      have hfo1 : st1.findOneArgs = st.findOneArgs := by
        by_cases he : exposeQL <;> simp [hst1, he]
      have hfm1 : st1.findManyArgs = st.findManyArgs := by
        by_cases he : exposeQL <;> simp [hst1, he]
      have hw1 : st1.warnings = st.warnings ++
          (if exposeQL then [ident ++ "." ++ k] else []) := by
        by_cases he : exposeQL <;> simp [hst1, he]
      obtain ⟨st2, hfold, h1, h2, h3⟩ := ih st1 hnd'
        (by intro k2 hk2; rw [hfm1]; exact hinv k2 (by simp [hk2]))
        (by intro p hp hb hc; exact hconv p (by simp [hp]) hb hc)
        (by intro k2 hk2; rw [hfo1]; exact hone k2 (by simp [hk2]))
      refine ⟨st2, ?_, ?_, ?_, ?_⟩
      · simpa [List.foldlM_cons, hstep] using hfold
      · rw [h1, hfo1]
        simp [identifyingEntry, hB]
      · rw [h2, hfm1]
        simp [filterableEntry, hB]
      · rw [h3, hw1]
        by_cases he : exposeQL
        · subst he
          simp [hB, List.append_assoc]
        · simp only [Bool.not_eq_true] at he
          subst he
          simp
    · -- no collision
      have hBf : keyMem (builtinArgKeys exposeQL) k = false := by
        simpa using hB
      have hcolf : (jsLookup st.findManyArgs k).isSome = false := by
        rw [hcol]; exact hBf
      by_cases hc : r.collection.isSome
      · -- hasMany rule: skipped entirely
        have hstep : processAttr exposeQL ident st k r = .ok st := by
          rw [processAttr, if_neg (by rw [hcolf]; simp), if_pos hc]
        obtain ⟨st2, hfold, h1, h2, h3⟩ := ih st hnd'
          (by intro k2 hk2; exact hinv k2 (by simp [hk2]))
          (by intro p hp hb hcn; exact hconv p (by simp [hp]) hb hcn)
          (by intro k2 hk2; exact hone k2 (by simp [hk2]))
        refine ⟨st2, ?_, ?_, ?_, ?_⟩
        · simpa [List.foldlM_cons, hstep] using hfold
        · rw [h1]; simp [identifyingEntry, hBf, hc]
        · rw [h2]; simp [filterableEntry, hBf, hc]
        · rw [h3]
          by_cases he : exposeQL
          · subst he
            simp [hBf]
          · simp only [Bool.not_eq_true] at he
            subst he
            simp
      · -- scalar or belongsTo rule: becomes an argument
        have hcn : r.collection = none := by
          cases hcc : r.collection
          · rfl
          · rw [hcc] at hc; simp at hc
        obtain ⟨t, ht⟩ : ∃ t, convertToGraphQlType r.type = .ok t := by
          have := hconv (k, r) (by simp) hBf hcn
          cases hcc : convertToGraphQlType r.type
          · rw [hcc] at this; simp [Except.isOk, Except.toBool] at this
          · exact ⟨_, rfl⟩
        by_cases hid : isIdentifying r = true
        · -- identifying attribute: appended to findOneArgs
          have hone_k : keyMem (st.findOneArgs.map Prod.fst) k = false :=
            hone k hk_head
          have hstep : processAttr exposeQL ident st k r =
              .ok ⟨st.findOneArgs ++ [(k, ⟨k, t⟩)], st.findManyArgs, st.warnings⟩ := by
            rw [processAttr, if_neg (by rw [hcolf]; simp), if_neg (by rw [hcn]; simp),
              if_pos (by simpa [isIdentifying] using hid)]
            simp [ht, bind, Except.bind, setProp_fresh st.findOneArgs k _ hone_k]
          obtain ⟨st2, hfold, h1, h2, h3⟩ := ih
            ⟨st.findOneArgs ++ [(k, ⟨k, t⟩)], st.findManyArgs, st.warnings⟩ hnd'
            (by intro k2 hk2; exact hinv k2 (by simp [hk2]))
            (by intro p hp hb hcc; exact hconv p (by simp [hp]) hb hcc)
            (by
              intro k2 hk2
              have hk2k : ¬(k = k2) := fun he => hk_not_rest (he ▸ hk2)
              simp [keyMem_append, hone k2 (by simp [hk2]), keyMem, hk2k])
          refine ⟨st2, ?_, ?_, ?_, ?_⟩
          · simpa [List.foldlM_cons, hstep] using hfold
          · rw [h1]
            simp [identifyingEntry, hBf, hcn, hid, ht, List.append_assoc]
          · rw [h2]
            simp [filterableEntry, hBf, hcn, hid]
          · rw [h3]
            by_cases he : exposeQL
            · subst he
              simp [hBf]
            · simp only [Bool.not_eq_true] at he
              subst he
              simp
        · -- filterable attribute: appended to findManyArgs
          have hmany_k : keyMem (st.findManyArgs.map Prod.fst) k = false := by
            rw [hinv k hk_head]; exact hBf
          have hstep : processAttr exposeQL ident st k r =
              .ok ⟨st.findOneArgs, st.findManyArgs ++ [(k, ⟨k, t⟩)], st.warnings⟩ := by
            rw [processAttr, if_neg (by rw [hcolf]; simp), if_neg (by rw [hcn]; simp),
              if_neg (by simpa [isIdentifying] using hid)]
            simp [ht, bind, Except.bind, setProp_fresh st.findManyArgs k _ hmany_k]
          obtain ⟨st2, hfold, h1, h2, h3⟩ := ih
            ⟨st.findOneArgs, st.findManyArgs ++ [(k, ⟨k, t⟩)], st.warnings⟩ hnd'
            (by
              intro k2 hk2
              have hk2k : ¬(k = k2) := fun he => hk_not_rest (he ▸ hk2)
              rw [List.map_append, keyMem_append, hinv k2 (by simp [hk2])]
              simp [keyMem, hk2k])
            (by intro p hp hb hcc; exact hconv p (by simp [hp]) hb hcc)
            (by intro k2 hk2; exact hone k2 (by simp [hk2]))
          refine ⟨st2, ?_, ?_, ?_, ?_⟩
          · simpa [List.foldlM_cons, hstep] using hfold
          · rw [h1]
            simp [identifyingEntry, hBf, hcn, hid]
          · rw [h2]
            simp [filterableEntry, hBf, hcn, hid, ht, List.append_assoc]
          · rw [h3]
            by_cases he : exposeQL
            · subst he
              simp [hBf]
            · simp only [Bool.not_eq_true] at he
              subst he
              simp

/-- In a list with unique keys, a key determines its entry. -/
theorem nodup_keys_unique {α : Type} (l : List (String × α))
    (h : (l.map Prod.fst).Nodup) (p q : String × α)
    (hp : p ∈ l) (hq : q ∈ l) (he : p.1 = q.1) : p = q := by
  induction l with
  | nil => cases hp
  | cons a r ih =>
    rw [List.map_cons] at h
    have hnd := List.nodup_cons.mp h
    cases hp with
    | head =>
      cases hq with
      | head => rfl
      | tail _ hq' => exact absurd (he ▸ List.mem_map_of_mem Prod.fst hq') hnd.1
    | tail _ hp' =>
      cases hq with
      | head => exact absurd (he ▸ List.mem_map_of_mem Prod.fst hp') hnd.1
      | tail _ hq' => exact ih hnd.2 hp' hq'

/-- Facts recorded by a produced filterable entry. -/
theorem filterableEntry_some_facts (exposeQL : Bool) (p : String × AttrRules)
    (b : String × ArgDef) (h : filterableEntry exposeQL p = some b) :
    b.1 = p.1 ∧ keyMem (builtinArgKeys exposeQL) p.1 = false
    ∧ isIdentifying p.2 = false := by
  unfold filterableEntry at h
  split_ifs at h with h1 h2 h3
  all_goals first
    | cases h
    | (cases hcc : convertToGraphQlType p.2.type with
       | error e => rw [hcc] at h; cases h
       | ok t =>
         rw [hcc] at h
         cases h
         exact ⟨rfl, by simpa using h1, by simpa using h3⟩)

/-- Facts recorded by a produced identifying entry. -/
theorem identifyingEntry_some_facts (exposeQL : Bool) (p : String × AttrRules)
    (b : String × ArgDef) (h : identifyingEntry exposeQL p = some b) :
    b.1 = p.1 ∧ keyMem (builtinArgKeys exposeQL) p.1 = false
    ∧ isIdentifying p.2 = true := by
  unfold identifyingEntry at h
  split_ifs at h with h1 h2 h3
  all_goals first
    | cases h
    | (cases hcc : convertToGraphQlType p.2.type with
       | error e => rw [hcc] at h; cases h
       | ok t =>
         rw [hcc] at h
         cases h
         exact ⟨rfl, by simpa using h1, by simpa using h3⟩)

/-- An identifying attribute never produces a filterable entry. -/
theorem filterableEntry_identifying (exposeQL : Bool) (p : String × AttrRules)
    (h : isIdentifying p.2 = true) : filterableEntry exposeQL p = none := by
  unfold filterableEntry
  split_ifs <;> simp_all

/-- A built-in argument name never occurs among the filterable entries. -/
theorem filterable_keys_not_builtin (exposeQL : Bool)
    (attrs : List (String × AttrRules)) (k : String)
    (hb : keyMem (builtinArgKeys exposeQL) k = true) :
    keyMem ((attrs.filterMap (filterableEntry exposeQL)).map Prod.fst) k = false := by
  rw [keyMem_eq_false_iff]
  intro hmem
  obtain ⟨b, hbmem, hbk⟩ := List.mem_map.mp hmem
  obtain ⟨p, hp, hpe⟩ := List.mem_filterMap.mp hbmem
  obtain ⟨he1, he2, _⟩ := filterableEntry_some_facts exposeQL p b hpe
  have hk : p.1 = k := by rw [← he1, hbk]
  rw [hk] at he2
  simp [he2] at hb

/-- A built-in argument name never occurs among the identifying entries. -/
theorem identifying_keys_not_builtin (exposeQL : Bool)
    (attrs : List (String × AttrRules)) (k : String)
    (hb : keyMem (builtinArgKeys exposeQL) k = true) :
    keyMem ((attrs.filterMap (identifyingEntry exposeQL)).map Prod.fst) k = false := by
  rw [keyMem_eq_false_iff]
  intro hmem
  obtain ⟨b, hbmem, hbk⟩ := List.mem_map.mp hmem
  obtain ⟨p, hp, hpe⟩ := List.mem_filterMap.mp hbmem
  obtain ⟨he1, he2, _⟩ := identifyingEntry_some_facts exposeQL p b hpe
  have hk : p.1 = k := by rw [← he1, hbk]
  rw [hk] at he2
  simp [he2] at hb

/-- Claim C5 counterexample: a belongsTo (`model`) attribute is not
    excluded from the argument partition - the loop only skips
    `collection` rules, so a non-unique `author: {model, type}` attribute
    is individually exposed on the plural query field. -/
theorem claim_C5_counterexample :
    (buildArgs false "article"
      [("id", { type := some "string", primaryKey := some true }),
       ("author", { model := some "user", type := some "integer" })]).map
      (fun st => st.findManyArgs.map Prod.fst)
    = .ok ["limit", "skip", "sort", "author"] := rfl

/-- Claim C5 (amended): with unique attribute names and convertible types,
    the singular argument list is exactly the identifying entries (the
    non-hasMany attributes flagged primaryKey or unique, belongsTo
    attributes included) in declaration order, the plural argument list is
    exactly the built-ins followed by the filterable entries (the
    remaining non-hasMany attributes, belongsTo included) in declaration
    order; only hasMany attributes appear in neither partition, and a
    primary-key attribute never appears among the filterable arguments. -/
theorem claim_C5_amended (exposeQL : Bool) (ident : String)
    (attrs : List (String × AttrRules))
    (hnd : (attrs.map Prod.fst).Nodup)
    (hconv : ∀ p, p ∈ attrs → keyMem (builtinArgKeys exposeQL) p.1 = false →
        p.2.collection = none → (convertToGraphQlType p.2.type).isOk = true) :
    ∃ st2, buildArgs exposeQL ident attrs = .ok st2
      ∧ st2.findOneArgs = attrs.filterMap (identifyingEntry exposeQL)
      ∧ st2.findManyArgs
          = initFindManyArgs exposeQL ++ attrs.filterMap (filterableEntry exposeQL)
      ∧ (∀ p, p ∈ attrs → p.2.primaryKey.getD false = true →
          keyMem ((attrs.filterMap (filterableEntry exposeQL)).map Prod.fst) p.1
            = false) := by
  obtain ⟨st2, hfold, h1, h2, h3⟩ := buildArgs_fold exposeQL ident attrs
    ⟨[], initFindManyArgs exposeQL, []⟩ hnd
    (by intro k _; rfl)
    hconv
    (by intro k _; rfl)
  refine ⟨st2, hfold, by simpa using h1, h2, ?_⟩
  intro p hp hpk
  rw [keyMem_eq_false_iff]
  intro hmem
  obtain ⟨b, hbmem, hbk⟩ := List.mem_map.mp hmem
  obtain ⟨p', hp', hpe⟩ := List.mem_filterMap.mp hbmem
  obtain ⟨he1, _, he3⟩ := filterableEntry_some_facts exposeQL p' b hpe
  have hpp : p' = p := nodup_keys_unique attrs hnd p' p hp' hp (by rw [he1] at hbk; exact hbk)
  rw [hpp] at he3
  rw [show isIdentifying p.2 = true by simp [isIdentifying, hpk]] at he3
  cases he3

/-- Witness for the amended C5 theorem on the user collection's
    attributes. -/
theorem claim_C5_amended_witness :
    (([("id", ({ type := some "string", primaryKey := some true } : AttrRules)),
       ("firstName", { type := some "string" }),
       ("articles", { collection := some "article", via := some "author" })].map
        Prod.fst).Nodup)
    ∧ ∃ st2,
      buildArgs false "user"
        [("id", { type := some "string", primaryKey := some true }),
         ("firstName", { type := some "string" }),
         ("articles", { collection := some "article", via := some "author" })]
        = .ok st2
      ∧ st2.findOneArgs
          = [("id", ({ type := some "string", primaryKey := some true } : AttrRules)),
             ("firstName", { type := some "string" }),
             ("articles", { collection := some "article", via := some "author" })].filterMap
              (identifyingEntry false)
      ∧ st2.findManyArgs
          = initFindManyArgs false ++
            [("id", ({ type := some "string", primaryKey := some true } : AttrRules)),
             ("firstName", { type := some "string" }),
             ("articles", { collection := some "article", via := some "author" })].filterMap
              (filterableEntry false)
      ∧ (∀ p, p ∈ [("id", ({ type := some "string", primaryKey := some true } : AttrRules)),
             ("firstName", { type := some "string" }),
             ("articles", { collection := some "article", via := some "author" })] →
          p.2.primaryKey.getD false = true →
          keyMem (([("id", ({ type := some "string", primaryKey := some true } : AttrRules)),
             ("firstName", { type := some "string" }),
             ("articles", { collection := some "article", via := some "author" })].filterMap
              (filterableEntry false)).map Prod.fst) p.1 = false) := by
  refine ⟨by decide, claim_C5_amended false "user" _ (by decide) (by decide)⟩

/-- Membership test `keyMem` is true exactly on the members. -/
theorem keyMem_eq_true_iff (l : List String) (k : String) :
    keyMem l k = true ↔ k ∈ l := by
  induction l with
  | nil => simp [keyMem]
  | cons a r ih =>
    by_cases h : a = k
    · subst h; simp [keyMem]
    · simp [keyMem, h, ih, (Ne.symm h)]

/-- Claim C6 counterexample: with `exposeQueryLanguage` disabled there is
    no built-in `where` argument, so a filterable attribute literally named
    `where` is NOT excluded - it appears as an individually-typed plural
    argument (and no warning is raised for skipped built-in names either). -/
theorem claim_C6_counterexample :
    (buildArgs false "user" [("where", { type := some "string" })]).map
      (fun st => jsLookup st.findManyArgs "where")
    = .ok (some ⟨"where", .string⟩) := rfl

/-- Claim C6 (amended): a filterable attribute whose name collides with a
    currently built-in argument name (`limit`/`skip`/`sort` always,
    `where` only when `exposeQueryLanguage` is enabled) is excluded from
    both argument sets; the built-in arguments keep their original types;
    the exclusion warns only when `exposeQueryLanguage` is enabled
    (silently otherwise); and an attribute named `sort` never appears as
    an individually-typed argument. -/
theorem claim_C6_amended (exposeQL : Bool) (ident : String)
    (attrs : List (String × AttrRules))
    (hnd : (attrs.map Prod.fst).Nodup)
    (hconv : ∀ p, p ∈ attrs → keyMem (builtinArgKeys exposeQL) p.1 = false →
        p.2.collection = none → (convertToGraphQlType p.2.type).isOk = true) :
    ∃ st2, buildArgs exposeQL ident attrs = .ok st2
      ∧ (∀ p, p ∈ attrs → keyMem (builtinArgKeys exposeQL) p.1 = true →
          keyMem (st2.findOneArgs.map Prod.fst) p.1 = false
          ∧ keyMem ((attrs.filterMap (filterableEntry exposeQL)).map Prod.fst) p.1
              = false)
      ∧ (∀ b, b ∈ initFindManyArgs exposeQL → jsLookup st2.findManyArgs b.1 = some b.2)
      ∧ st2.warnings = (if exposeQL then
            (attrs.filter (fun p => keyMem (builtinArgKeys exposeQL) p.1)).map
              (fun p => ident ++ "." ++ p.1)
          else [])
      ∧ keyMem ((attrs.filterMap (filterableEntry exposeQL)).map Prod.fst) "sort"
          = false
      ∧ keyMem (st2.findOneArgs.map Prod.fst) "sort" = false := by
  obtain ⟨st2, hfold, h1, h2, h3⟩ := buildArgs_fold exposeQL ident attrs
    ⟨[], initFindManyArgs exposeQL, []⟩ hnd
    (by intro k _; rfl) hconv (by intro k _; rfl)
  have hone_eq : st2.findOneArgs = attrs.filterMap (identifyingEntry exposeQL) := by
    simpa using h1
  have hsort : keyMem (builtinArgKeys exposeQL) "sort" = true := by
    cases exposeQL <;> rfl
  refine ⟨st2, hfold, ?_, ?_, by simpa using h3, ?_, ?_⟩
  · intro p hp hb
    constructor
    · rw [hone_eq]
      exact identifying_keys_not_builtin exposeQL attrs p.1 hb
    · exact filterable_keys_not_builtin exposeQL attrs p.1 hb
  · intro b hb
    have hbk : keyMem ((initFindManyArgs exposeQL).map Prod.fst) b.1 = true :=
      (keyMem_eq_true_iff _ _).mpr (List.mem_map_of_mem Prod.fst hb)
    rw [h2, jsLookup_append_left _ _ _ hbk]
    rcases Bool.eq_false_or_eq_true exposeQL with he | he <;> subst he <;>
      fin_cases hb <;> rfl
  · exact filterable_keys_not_builtin exposeQL attrs "sort" hsort
  · rw [hone_eq]
    exact identifying_keys_not_builtin exposeQL attrs "sort" hsort

/-- Attributes for the C6 witness: one filterable attribute named `sort`
    (colliding with the built-in sort argument) and one ordinary one. -/
def c6Attrs : List (String × AttrRules) :=
  [("sort", { type := some "string" }), ("firstName", { type := some "string" })]

/-- Witness for the amended C6 theorem with the raw filter enabled. -/
theorem claim_C6_amended_witness :
    ((c6Attrs.map Prod.fst).Nodup)
    ∧ ∃ st2, buildArgs true "user" c6Attrs = .ok st2
      ∧ (∀ p, p ∈ c6Attrs → keyMem (builtinArgKeys true) p.1 = true →
          keyMem (st2.findOneArgs.map Prod.fst) p.1 = false
          ∧ keyMem ((c6Attrs.filterMap (filterableEntry true)).map Prod.fst) p.1
              = false)
      ∧ (∀ b, b ∈ initFindManyArgs true → jsLookup st2.findManyArgs b.1 = some b.2)
      ∧ st2.warnings = (if true then
            (c6Attrs.filter (fun p => keyMem (builtinArgKeys true) p.1)).map
              (fun p => "user" ++ "." ++ p.1)
          else [])
      ∧ keyMem ((c6Attrs.filterMap (filterableEntry true)).map Prod.fst) "sort"
          = false
      ∧ keyMem (st2.findOneArgs.map Prod.fst) "sort" = false :=
  ⟨by decide, claim_C6_amended true "user" c6Attrs (by decide) (by decide)⟩
